import Mathlib

/-
  Verification of the Structural Indexing, Location Resolution, and Patch
  Synthesis Engine of the BugSwarm/CI-Bench repository.

  The Python sources are shallowly embedded as executable Lean definitions:
    * `parse_python_file`  (tools/agentless/get_repo_structure/get_repo_structure.py)
    * `parse_java_file`    (same file)
    * `JavaGlobalVariableVisitor.calculate_end_line`
                           (tools/agentless/agentless/util/parse_global_var_for_java.py)
    * `CompressTransformerJava` (tools/agentless/agentless/util/compress_file_java.py)
    * `_post_process_multifile_repair` and `post_process_raw_output`
                           (tools/agentless/agentless/repair/repair.py)

  External fallible calls are embedded as outcome-valued inputs: CPython's
  `ast.parse` as an `Option` (its failure is caught wholesale), and
  `javalang.parse.parse` as a three-way outcome, because javalang can
  raise either `javalang.parser.JavaSyntaxError` (which the sources
  catch) or `javalang.tokenizer.LexerError` — a direct `Exception`
  subclass that none of the `except` clauses match, so it propagates.
  Functions on whose path an exception can escape return a `PyOutcome`
  distinguishing a value from an uncaught raise.  Helper
  functions imported from `agentless.util.postprocess_data`, a module of
  this repository that is not part of the provided sources, are either
  abstracted as function parameters or modelled from the spec (each such
  definition says so in its doc comment).
-/

namespace CIBench

/-! ## Python `str.splitlines` (newline-only fragment used by the sources) -/

/-- Accumulator loop for `splitlines`: collects the current (reversed) line
and emits it at `'\n'`; a trailing fragment is emitted only when non-empty,
matching Python's `str.splitlines`, which drops nothing except the empty
final fragment after a terminal newline. -/
def slAux : List Char → List Char → List (List Char)
  | [], acc => if acc = [] then [] else [acc.reverse]
  | c :: rest, acc =>
    if c = '\n' then acc.reverse :: slAux rest []
    else slAux rest (c :: acc)

/-- Python `str.splitlines()` restricted to `'\n'` separators (the only
separator occurring in the embedded code paths). -/
def pySplitlines (s : String) : List String :=
  (slAux s.toList []).map String.mk

/-- Python slice `lines[a:b]` (0-based, end exclusive). -/
def pySlice (lines : List String) (a b : Nat) : List String :=
  (lines.drop a).take (b - a)

/-- A line is blank when it is empty or consists of whitespace only. -/
def isBlankLine (l : String) : Bool := l.toList.all Char.isWhitespace

/-! ## CPython AST fragment and `ast.walk`

`ast.parse` is external; its result is embedded as a tree of statements
carrying the position attributes the source reads (`lineno`, `end_lineno`).
`ast.AsyncFunctionDef` is a distinct constructor because in CPython it is
not an `ast.FunctionDef` subclass, which the source tests with
`isinstance`. -/

inductive PyNode where
  | classDef (name : String) (lineno end_lineno : Nat) (body : List PyNode)
  | functionDef (name : String) (lineno end_lineno : Nat) (body : List PyNode)
  | asyncFunctionDef (name : String) (lineno end_lineno : Nat) (body : List PyNode)
  | other (lineno end_lineno : Nat) (body : List PyNode)

/-- Child statements of a node, as enumerated by `ast.iter_child_nodes`. -/
def pyChildren : PyNode → List PyNode
  | .classDef _ _ _ b => b
  | .functionDef _ _ _ b => b
  | .asyncFunctionDef _ _ _ b => b
  | .other _ _ b => b

mutual

/-- Node count of a tree (1 for the node plus its descendants). -/
def pySize : PyNode → Nat
  | .classDef _ _ _ b => 1 + pySizeL b
  | .functionDef _ _ _ b => 1 + pySizeL b
  | .asyncFunctionDef _ _ _ b => 1 + pySizeL b
  | .other _ _ b => 1 + pySizeL b

/-- Node count of a forest. -/
def pySizeL : List PyNode → Nat
  | [] => 0
  | n :: rest => pySize n + pySizeL rest

end

/-- One BFS dequeue step per unit of fuel: `ast.walk` keeps a deque, pops
from the front and appends the popped node's children.  Each step consumes
exactly one node, so `pySizeL q` units of fuel exhaust the queue. -/
def walkFuel : Nat → List PyNode → List PyNode
  | 0, _ => []
  | _ + 1, [] => []
  | k + 1, n :: rest => n :: walkFuel k (rest ++ pyChildren n)

/-- Model of `ast.walk` over a module body (the `Module` node itself matches neither
`isinstance` test in the source, so starting from its children is
equivalent). -/
def pyWalk (body : List PyNode) : List PyNode := walkFuel (pySizeL body) body

/-! ## `parse_python_file` -/

/-- Method / function record built by `parse_python_file`
(dict keys `name`, `start_line`, `end_line`, `text`). -/
structure PyFuncInfo where
  name : String
  start_line : Nat
  end_line : Nat
  text : List String
  deriving DecidableEq

/-- Class record built by `parse_python_file`
(dict keys `name`, `start_line`, `end_line`, `text`, `methods`). -/
structure PyClassInfo where
  name : String
  start_line : Nat
  end_line : Nat
  text : List String
  methods : List PyFuncInfo
  deriving DecidableEq

/-- The third component of `parse_python_file`'s result is dynamically
typed in Python: the error path returns the string `""` while the success
path returns `file_content.splitlines()` (a list). -/
inductive PyLinesVal where
  | asStr (s : String)
  | asLines (l : List String)
  deriving DecidableEq

/-- Records for the direct `ast.FunctionDef` children of a class body
(the `methods` list of `parse_python_file`). -/
def pyMethodsOf (lines : List String) (body : List PyNode) : List PyFuncInfo :=
  body.filterMap fun n =>
    match n with
    | .functionDef mname msl mel _ =>
      some ⟨mname, msl, mel, pySlice lines (msl - 1) mel⟩
    | _ => none

/-- The method names a class contributes to the `class_methods` set. -/
def pyMethodNames (body : List PyNode) : List String :=
  body.filterMap fun n =>
    match n with
    | .functionDef mname _ _ _ => some mname
    | _ => none

/-- The `for node in ast.walk(...)` loop of `parse_python_file`: walks the
node list in order with the accumulating `class_methods` set (embedded as a
list queried by membership), producing `class_info` and `function_names`
in iteration order. -/
def parsePyLoop (lines : List String) : List PyNode → List String →
    List PyClassInfo × List PyFuncInfo
  | [], _ => ([], [])
  | n :: rest, cm =>
    match n with
    | .classDef cname csl cel cbody =>
      let methods := pyMethodsOf lines cbody
      let res := parsePyLoop lines rest (cm ++ pyMethodNames cbody)
      (⟨cname, csl, cel, pySlice lines (csl - 1) cel, methods⟩ :: res.1, res.2)
    | .functionDef fname fsl fel _ =>
      if fname ∈ cm then parsePyLoop lines rest cm
      else
        let res := parsePyLoop lines rest cm
        (res.1, ⟨fname, fsl, fel, pySlice lines (fsl - 1) fel⟩ :: res.2)
    | _ => parsePyLoop lines rest cm

/-- Model of `parse_python_file(file_path, file_content)`.  The external
`ast.parse(file_content)` is passed in as `parsed` (`none` when it raises,
which the source catches).  On the error path the source returns
`[], [], ""` — the third component is the empty *string*, not the line
list. -/
def parsePythonFile (fileContent : String) (parsed : Option (List PyNode)) :
    List PyClassInfo × List PyFuncInfo × PyLinesVal :=
  match parsed with
  | none => ([], [], .asStr "")
  | some moduleBody =>
    let lines := pySplitlines fileContent
    let res := parsePyLoop lines (pyWalk moduleBody) []
    (res.1, res.2, .asLines lines)

/-! ## `parse_java_file`

The two `re.match` patterns of the source are embedded as recursive-descent
recognizers over `List Char`, replicating the leftmost backtracking order of
Python's `re` (alternatives in written order, `?` preferring presence).
Greedy runs (`\s*`, `\s+`, `\w+`, `[\w<>\[\]]+`, `[^)]*`) commit to maximal
munch, which is faithful here because each run's character class is
disjoint from what the pattern requires next. -/

/-- Python `\s` on the ASCII range. -/
def pyIsSpace (c : Char) : Bool :=
  c = ' ' || c = '\t' || c = '\n' || c = '\r' || c = '\x0b' || c = '\x0c'

/-- Python `\w` on the ASCII range. -/
def isWordChar (c : Char) : Bool := c.isAlphanum || c = '_'

/-- Characters of the `[\w<>\[\]]` class in the method pattern. -/
def isTypeChar (c : Char) : Bool :=
  isWordChar c || c = '<' || c = '>' || c = '[' || c = ']'

/-- Whitespace run `\s*`. -/
def dropWS (cs : List Char) : List Char := cs.dropWhile pyIsSpace

/-- Consume a literal, returning the remainder on success. -/
def dropLit : List Char → List Char → Option (List Char)
  | [], cs => some cs
  | _ :: _, [] => none
  | p :: ps, c :: cs => if c = p then dropLit ps cs else none

/-- Remainders after an optional keyword group `(kw1|kw2|...)?`:
each matching alternative in written order, then the empty branch. -/
def optKeyword (alts : List String) (cs : List Char) : List (List Char) :=
  alts.filterMap (fun a => dropLit a.toList cs) ++ [cs]

/-- First alternative on which the continuation succeeds (regex
backtracking over an ordered list of choice points). -/
def firstSome : List α → (α → Option β) → Option β
  | [], _ => none
  | x :: rest, f =>
    match f x with
    | some b => some b
    | none => firstSome rest f

/-- Model of `re.match(r'^\s*(public|protected|private)?\s*(abstract|final)?\s*class\s+(\w+)\s*', line)`,
returning group 3 (the class name). -/
def classMatch (line : String) : Option String :=
  let cs0 := dropWS line.toList
  firstSome (optKeyword ["public", "protected", "private"] cs0) fun cs1 =>
    firstSome (optKeyword ["abstract", "final"] (dropWS cs1)) fun cs2 =>
      match dropLit "class".toList (dropWS cs2) with
      | none => none
      | some cs3 =>
        if cs3.takeWhile pyIsSpace = [] then none
        else
          let nm := (dropWS cs3).takeWhile isWordChar
          if nm = [] then none else some (String.mk nm)

/-- Model of `re.match(r'^\s*(public|protected|private|static|final|abstract|synchronized)?\s*([\w<>\[\]]+\s+)?(\w+)\s*\(([^)]*)\)\s*{?', line)`,
returning group 3 (the method name). -/
def methodMatch (line : String) : Option String :=
  let cs0 := dropWS line.toList
  firstSome
    (optKeyword
      ["public", "protected", "private", "static", "final", "abstract", "synchronized"]
      cs0) fun cs1 =>
    let cs1' := dropWS cs1
    let typeBranch : List (List Char) :=
      let ty := cs1'.takeWhile isTypeChar
      if ty = [] then []
      else
        let rest := cs1'.drop ty.length
        let ws := rest.takeWhile pyIsSpace
        if ws = [] then [] else [rest.drop ws.length]
    firstSome (typeBranch ++ [cs1']) fun cs2 =>
      let nm := cs2.takeWhile isWordChar
      if nm = [] then none
      else
        match dropWS (cs2.drop nm.length) with
        | '(' :: cs4 =>
          let inside := cs4.takeWhile (· ≠ ')')
          match cs4.drop inside.length with
          | ')' :: _ => some (String.mk nm)
          | _ => none
        | _ => none

/-- Values stored in the dicts `parse_java_file` builds. -/
inductive PVal where
  | s (v : String)
  | n (v : Nat)
  | ls (v : List String)
  deriving DecidableEq

/-- A Python dict as built by the `parse_java_file` literals. -/
abbrev JDict := List (String × PVal)

/-- Dict key access (`d[key]`, as an `Option` for absent keys). -/
def dictGet : JDict → String → Option PVal
  | [], _ => none
  | (k, v) :: rest, key => if k = key then some v else dictGet rest key

/-- The class dict literal of `parse_java_file`. -/
def mkClassDict (name : String) (startLine endLine : Nat) (text : List String) : JDict :=
  [("name", .s name), ("start_line", .n startLine), ("end_line", .n endLine),
   ("text", .ls text)]

/-- The method dict literal of `parse_java_file` — it has no `end_line`
key. -/
def mkMethodDict (name : String) (startLine : Nat) (text : List String) : JDict :=
  [("name", .s name), ("start_line", .n startLine), ("text", .ls text)]

/-- The `for i, line in enumerate(lines, start=1)` loop of
`parse_java_file`, including the final `if current_class` flush: `i` is the
1-based number of the next line to scan and `cur` the pending
`(current_class, class_start_line)`. -/
def parseJavaLoop (allLines : List String) :
    List String → Nat → Option (String × Nat) → List JDict × List JDict
  | [], _, cur =>
    (match cur with
     | some (pname, psl) =>
       [mkClassDict pname psl allLines.length (allLines.drop (psl - 1))]
     | none => [], [])
  | line :: rest, i, cur =>
    match classMatch line with
    | some cname =>
      let res := parseJavaLoop allLines rest (i + 1) (some (cname, i))
      (match cur with
       | some (pname, psl) =>
         mkClassDict pname psl (i - 1) (pySlice allLines (psl - 1) (i - 1)) :: res.1
       | none => res.1, res.2)
    | none =>
      match methodMatch line with
      | some mname =>
        let res := parseJavaLoop allLines rest (i + 1) cur
        (res.1, mkMethodDict mname i [line] :: res.2)
      | none => parseJavaLoop allLines rest (i + 1) cur

/-- Model of `parse_java_file(file_path, file_content)` on an already-split line
list (the source normalizes `file_content` to a line list up front),
returning `(class_info, method_info, lines)`. -/
def parseJavaFile (lines : List String) : List JDict × List JDict × List String :=
  let res := parseJavaLoop lines lines 1 none
  (res.1, res.2, lines)

/-! ## `JavaGlobalVariableVisitor.calculate_end_line` -/

/-- Occurrences of a character in a line (`line.count(c)`). -/
def countChar (line : String) (c : Char) : Nat := line.toList.count c

/-- The scanning loop of `calculate_end_line`: `i` is the 0-based index of
the current line, `opens`/`closes` the running totals, `e` the `end_line`
value to return when no line triggers the `break`.  Empty lines are
skipped before the totals are updated and before `line[-1]` is read. -/
def celLoop : List String → Nat → Nat → Nat → Nat → Nat
  | [], _, _, _, e => e
  | line :: rest, i, opens, closes, e =>
    if line = "" then celLoop rest (i + 1) opens closes e
    else
      let o := opens + countChar line '('
      let c := closes + countChar line ')'
      if o = c ∧ line.toList.getLast? = some ';' then i + 1
      else celLoop rest (i + 1) o c e

/-- Model of `calculate_end_line(codes, start_line)`: splits `codes` into lines and
scans from index `start_line - 1`, counting `'('` and `')'` per line and
returning `i + 1` at the first non-empty line whose running counts are
equal and whose last character is `';'`; returns `start_line` when no line
qualifies. -/
def calculateEndLine (codes : String) (startLine : Nat) : Nat :=
  let lines := pySplitlines codes
  celLoop (lines.drop (startLine - 1)) (startLine - 1) 0 0 startLine

/-! ## `CompressTransformerJava` (compress_file_java.py)

The javalang AST fragment the transformer inspects: a class body is a list
of members; `javalang.tree.ConstructorDeclaration` is distinct from
`MethodDeclaration` and matches neither `isinstance` test. -/

inductive JavaMember where
  | methodDecl (name : String)
  | fieldDecl (declarators : List String)
  | constructorDecl (name : String)
  | otherMember
  deriving DecidableEq

/-- A `javalang.tree.ClassDeclaration`. -/
structure JavaClassNode where
  name : String
  body : List JavaMember
  deriving DecidableEq

/-- The transformer's `replacement_string`. -/
def replacementString : String := "..."

/-- Stub line for a method member. -/
def methodStub (name : String) : String :=
  "    " ++ name ++ "() \x7b " ++ replacementString ++ " \x7d"

/-- Stub line for a field member (`declarators[0].name`; javalang field
declarations carry at least one declarator, so the empty default is never
read on real trees). -/
def fieldStub (declarators : List String) : String :=
  "    " ++ declarators.headD "" ++ " = " ++ replacementString ++ ";"

/-- The `for member in class_node.body` loop of `transform_class`,
appending to `transformed_body` exactly as the source does. -/
def transformClassLoop (keepConstant : Bool) (acc : List String) :
    List JavaMember → List String
  | [] => acc
  | m :: rest =>
    match m with
    | .methodDecl nm => transformClassLoop keepConstant (acc ++ [methodStub nm]) rest
    | .fieldDecl ds =>
      if keepConstant then transformClassLoop keepConstant (acc ++ [fieldStub ds]) rest
      else transformClassLoop keepConstant acc rest
    | _ => transformClassLoop keepConstant acc rest

/-- Model of `CompressTransformerJava.transform_class` (returns the dict
`{"name": ..., "body": ...}`). -/
def transformClass (keepConstant : Bool) (classNode : JavaClassNode) :
    String × List String :=
  (classNode.name, transformClassLoop keepConstant [] classNode.body)

/-- Rendering of one class block inside `transform`: an extra four-space
indent per body line, joined by newlines, wrapped in
`class <Name> {\n...\n}`. -/
def classCode (keepConstant : Bool) (classNode : JavaClassNode) : String :=
  let t := transformClass keepConstant classNode
  let bodyCode := String.intercalate "\n" (t.2.map (fun l => "    " ++ l))
  "class " ++ t.1 ++ " \x7b\n" ++ bodyCode ++ "\n\x7d"

/-- Outcome of the external `javalang.parse.parse(java_code)` call.  On
grammatically invalid input it raises `javalang.parser.JavaSyntaxError`;
on input its tokenizer cannot process (for example a stray backtick) it
raises `javalang.tokenizer.LexerError`, which subclasses `Exception`
directly and is *not* a `JavaSyntaxError`. -/
inductive JavaParseOutcome where
  | parsed (classes : List JavaClassNode)
  | syntaxError
  | lexerError
  deriving DecidableEq

/-- Result of a Python call that may let an exception escape to its
caller: either a returned value or an uncaught raise. -/
inductive PyOutcome (α : Type) where
  | val (v : α)
  | raised
  deriving DecidableEq

/-- Model of `CompressTransformerJava.transform(java_code)`.  The external
`javalang.parse.parse` is passed in as `parsed` (on success: the class
declarations in `tree.filter(ClassDeclaration)` order).  The `except`
clause of the source matches only `javalang.parser.JavaSyntaxError`, so a
`JavaSyntaxError` degrades to returning `java_code` while a `LexerError`
from the tokenizer propagates out of `transform` uncaught. -/
def transformJava (keepConstant : Bool) (parsed : JavaParseOutcome)
    (javaCode : String) : PyOutcome String :=
  match parsed with
  | .parsed classes =>
    .val (String.intercalate "\n\n" (classes.map (classCode keepConstant)))
  | .syntaxError => .val javaCode
  | .lexerError => .raised

/-! ## Repair pipeline (repair.py)

`extract_python_blocks` / `extract_java_blocks` / `split_edit_multifile_commands`
live in `agentless.util.postprocess_data`, which is not among the provided
sources; the parsed per-file command mapping they produce (an
insertion-ordered dict, embedded as an association list in document order)
is therefore taken as input.  Its keys are the target file paths (in the
source they are `repr`-quoted and unquoted again via `eval`, a round trip
the embedding elides).  `parse_edit_commands` / `parse_diff_edit_commands`
are likewise not under the provided sources and are abstracted as
`Option`-valued function parameters (`none` models the exception the
source catches). -/

/-- Association-list lookup for the string-keyed dicts of the pipeline. -/
def assocGet : List (String × α) → String → Option α
  | [], _ => none
  | (k, v) :: rest, key => if k = key then some v else assocGet rest key

/-- Model of `_post_process_multifile_repair`: takes only the first file key of the
parsed command mapping, looks its content up, applies that file's commands
and returns `(edited_file, new_content)`; every failure path inside the
`try` returns whatever `edited_file`/`new_content` already hold (the empty
string until assigned). -/
def postProcessMultifileRepair
    (parseEditCommands : List String → String → Option String)
    (parseDiffEditCommands : List String → String → List (Nat × Nat) → Option String)
    (fileToCommands : List (String × List String))
    (fileContents : List (String × String))
    (fileLocIntervals : List (String × List (Nat × Nat)))
    (diffFormat : Bool) : String × String :=
  match fileToCommands with
  | [] => ("", "")
  | (editedFile, editCommands) :: _ =>
    match assocGet fileContents editedFile with
    | none => (editedFile, "")
    | some content =>
      if diffFormat then
        match assocGet fileLocIntervals editedFile with
        | none => (editedFile, "")
        | some intervals =>
          match parseDiffEditCommands editCommands content intervals with
          | none => (editedFile, "")
          | some newContent => (editedFile, newContent)
      else
        match parseEditCommands editCommands content with
        | none => (editedFile, "")
        | some newContent => (editedFile, newContent)

/-- Modelled from the spec: `check_code_differ_by_just_empty_lines` from
`agentless.util.postprocess_data` is not among the provided sources.  Per
the spec it compares the two contents after stripping blank lines and
reports `True` exactly when they are identical after stripping. -/
def checkCodeDifferByJustEmptyLines (newContent origContent : String) : Bool :=
  (pySplitlines newContent).filter (fun l => !isBlankLine l) =
    (pySplitlines origContent).filter (fun l => !isBlankLine l)

/-- Model of `post_process_raw_output`: runs `_post_process_multifile_repair`, and
when the edited file is known builds the raw git diff (with the
`\ No newline at end of file` marker lines stripped), checks syntax of the
new content (`check_syntax`, not among the provided sources, abstracted as
`checkSyntax`) and blank-line-only difference, and keeps the final diff
only when the content is syntax-valid and not a blank-line-only change.
`fake_git_repo` is likewise abstracted (`fakeGitRepo file content
newContent` yields the diff text); `lint_code`'s result is computed but
unused by the source, so it is elided.  Returns
`(git_diffs, raw_git_diffs, content)`. -/
def postProcessRawOutput
    (checkSyntax : String → Bool)
    (fakeGitRepo : String → String → String → String)
    (parseEditCommands : List String → String → Option String)
    (parseDiffEditCommands : List String → String → List (Nat × Nat) → Option String)
    (fileToCommands : List (String × List String))
    (fileContents : List (String × String))
    (fileLocIntervals : List (String × List (Nat × Nat)))
    (diffFormat : Bool) : String × String × String :=
  let pp := postProcessMultifileRepair parseEditCommands parseDiffEditCommands
    fileToCommands fileContents fileLocIntervals diffFormat
  let editedFile := pp.1
  let newContent := pp.2
  match assocGet fileContents editedFile with
  | none => ("", "", "")
  | some content =>
    let rawGitDiffs :=
      "\n" ++ (fakeGitRepo editedFile content newContent).replace
        "\\ No newline at end of file\n" ""
    let syntaxSuccess := checkSyntax newContent
    let differByEmptyLines := checkCodeDifferByJustEmptyLines newContent content
    let gitDiffs := if syntaxSuccess && !differByEmptyLines then rawGitDiffs else ""
    (gitDiffs, rawGitDiffs, content)

/-! ## Shared helper lemmas -/

/-- Helper: `_post_process_multifile_repair` on a non-empty command mapping always
reports the first file key as `edited_file`, whatever else happens. -/
theorem ppmr_fst (parseE : List String → String → Option String)
    (parseD : List String → String → List (Nat × Nat) → Option String)
    (k : String) (cmds : List String) (rest : List (String × List String))
    (fileContents : List (String × String))
    (fileLocIntervals : List (String × List (Nat × Nat))) (diffFormat : Bool) :
    (postProcessMultifileRepair parseE parseD ((k, cmds) :: rest) fileContents
      fileLocIntervals diffFormat).1 = k := by
  dsimp only [postProcessMultifileRepair]
  split
  · rfl
  · split
    · split
      · rfl
      · split <;> rfl
    · split <;> rfl

/-! ## Claim theorems -/

/-- Claim C1: for every parsed model response mapping more than one file to
edit operations, only the first file key's operations are retained and
applied (the result coincides with the result on the mapping truncated to
its first entry, so all later files' operations are discarded), and the
returned `edited_file` is that first key. -/
theorem c1_first_file_only
    (parseE : List String → String → Option String)
    (parseD : List String → String → List (Nat × Nat) → Option String)
    (k : String) (cmds : List String) (rest : List (String × List String))
    (fileContents : List (String × String))
    (fileLocIntervals : List (String × List (Nat × Nat))) (diffFormat : Bool)
    (_hmulti : rest ≠ []) :
    postProcessMultifileRepair parseE parseD ((k, cmds) :: rest) fileContents
        fileLocIntervals diffFormat
      = postProcessMultifileRepair parseE parseD [(k, cmds)] fileContents
        fileLocIntervals diffFormat
    ∧ (postProcessMultifileRepair parseE parseD ((k, cmds) :: rest) fileContents
        fileLocIntervals diffFormat).1 = k :=
  ⟨rfl, ppmr_fst parseE parseD k cmds rest fileContents fileLocIntervals diffFormat⟩

/-- Witness for C1 at a concrete two-file command mapping. -/
theorem c1_first_file_only_witness :
    ([("other.py", [])] : List (String × List String)) ≠ [] ∧
    (postProcessMultifileRepair (fun _ c => some c) (fun _ c _ => some c)
        [("file.py", ["cmd"]), ("other.py", [])] [("file.py", "x")] [] false
      = postProcessMultifileRepair (fun _ c => some c) (fun _ c _ => some c)
        [("file.py", ["cmd"])] [("file.py", "x")] [] false
    ∧ (postProcessMultifileRepair (fun _ c => some c) (fun _ c _ => some c)
        [("file.py", ["cmd"]), ("other.py", [])] [("file.py", "x")] [] false).1
      = "file.py") :=
  ⟨by decide,
   c1_first_file_only (fun _ c => some c) (fun _ c _ => some c) "file.py" ["cmd"]
     [("other.py", [])] [("file.py", "x")] [] false (by decide)⟩

/-- Claim C2, counterexample: on the unparsable input `"def f(:"` the
parser returns the empty *string* as its third component, not the file's
line list, so raw line access is not preserved on the error path. -/
theorem c2_counterexample :
    (parsePythonFile "def f(:" none).1 = []
    ∧ (parsePythonFile "def f(:" none).2.1 = []
    ∧ pySplitlines "def f(:" = ["def f(:"]
    ∧ ¬ (parsePythonFile "def f(:" none).2.2
          = PyLinesVal.asLines (pySplitlines "def f(:") := by
  refine ⟨rfl, rfl, by decide, ?_⟩
  decide

/-- Claim C2, amended: for every input text that fails to parse, the
parser returns empty class and function declaration lists together with
the empty string in place of the file's lines — the raw line list is not
preserved on the error path. -/
theorem c2_amended (fileContent : String) :
    parsePythonFile fileContent none = ([], [], PyLinesVal.asStr "") := rfl

/-- The stub a class member contributes under `transform_class`. -/
def stubOf (keepConstant : Bool) : JavaMember → Option String
  | .methodDecl nm => some (methodStub nm)
  | .fieldDecl ds => if keepConstant then some (fieldStub ds) else none
  | _ => none

/-- Bool test for a method member. -/
def isMethodMember : JavaMember → Bool
  | .methodDecl _ => true
  | _ => false

/-- Bool test for a field member. -/
def isFieldMember : JavaMember → Bool
  | .fieldDecl _ => true
  | _ => false

/-- The accumulator loop of `transform_class` appends exactly the stubs of
the members, in member order. -/
theorem transformClassLoop_eq (keepConstant : Bool) :
    ∀ (ms : List JavaMember) (acc : List String),
      transformClassLoop keepConstant acc ms = acc ++ ms.filterMap (stubOf keepConstant) := by
  intro ms
  induction ms with
  | nil => intro acc; simp [transformClassLoop]
  | cons m rest ih =>
    intro acc
    cases m with
    | methodDecl nm => simp [transformClassLoop, stubOf, ih]
    | fieldDecl ds =>
      cases keepConstant <;> simp [transformClassLoop, stubOf, ih]
    | constructorDecl nm => simp [transformClassLoop, stubOf, ih]
    | otherMember => simp [transformClassLoop, stubOf, ih]

/-- Counting the stub lines: one per method plus, when constants are kept,
one per field. -/
theorem transformClass_length (keepConstant : Bool) (ms : List JavaMember) :
    (ms.filterMap (stubOf keepConstant)).length
      = ms.countP isMethodMember
        + (if keepConstant then ms.countP isFieldMember else 0) := by
  induction ms with
  | nil => cases keepConstant <;> simp
  | cons m rest ih =>
    cases m with
    | methodDecl nm =>
      cases keepConstant <;>
        simp_all [stubOf, isMethodMember, isFieldMember, List.countP_cons] <;> omega
    | fieldDecl ds =>
      cases keepConstant <;>
        simp_all [stubOf, isMethodMember, isFieldMember, List.countP_cons] <;> omega
    | constructorDecl nm =>
      cases keepConstant <;>
        simp_all [stubOf, isMethodMember, isFieldMember, List.countP_cons]
    | otherMember =>
      cases keepConstant <;>
        simp_all [stubOf, isMethodMember, isFieldMember, List.countP_cons]

/-- Claim C6: the emitted class body consists of exactly the per-member
stubs in declaration order — `<name>() { ... }` per method and, when
constants are kept, `<name> = ...;` per field — so its length is the
method count plus (when kept) the field count; in particular the concrete
class with two methods and one static field yields exactly three stub
lines, in declaration order. -/
theorem c6_stub_lines :
    (∀ keepConstant classNode,
      (transformClass keepConstant classNode).2
        = classNode.body.filterMap (stubOf keepConstant))
    ∧ (∀ keepConstant classNode,
      ((transformClass keepConstant classNode).2).length
        = classNode.body.countP isMethodMember
          + (if keepConstant then classNode.body.countP isFieldMember else 0))
    ∧ (transformClass true
        ⟨"C", [.methodDecl "m1", .fieldDecl ["FLAG"], .methodDecl "m2"]⟩).2
      = ["    m1() \x7b ... \x7d", "    FLAG = ...;", "    m2() \x7b ... \x7d"] := by
  refine ⟨?_, ?_, by decide⟩
  · intro keepConstant classNode
    simpa using transformClassLoop_eq keepConstant classNode.body []
  · intro keepConstant classNode
    rw [show (transformClass keepConstant classNode).2
          = classNode.body.filterMap (stubOf keepConstant) from by
        simpa using transformClassLoop_eq keepConstant classNode.body []]
    exact transformClass_length keepConstant classNode.body

/-- Claim C7, counterexample: the compressor is not exception-free.  On
`"class A { int x = `0; }"` the backtick is not a lexable Java token, so
`javalang.parse.parse` raises `javalang.tokenizer.LexerError`; that
exception matches no `except` clause in `transform` and propagates: the
compressor throws instead of returning the original text unchanged. -/
theorem c7_counterexample :
    transformJava true JavaParseOutcome.lexerError "class A \x7b int x = `0; \x7d"
      = PyOutcome.raised
    ∧ transformJava true JavaParseOutcome.lexerError "class A \x7b int x = `0; \x7d"
        ≠ PyOutcome.val "class A \x7b int x = `0; \x7d" :=
  ⟨rfl, by decide⟩

/-- Claim C7, amended: on input whose parse fails with the
`JavaSyntaxError` that `transform` catches, the compressor returns the
original text unchanged (a no-op compression); but the compressor is not
throw-free: input on which javalang's tokenizer raises `LexerError`
propagates that exception to the caller uncaught. -/
theorem c7_amended (keepConstant : Bool) (javaCode : String) :
    transformJava keepConstant JavaParseOutcome.syntaxError javaCode
      = PyOutcome.val javaCode
    ∧ transformJava keepConstant JavaParseOutcome.lexerError javaCode
      = PyOutcome.raised :=
  ⟨rfl, rfl⟩

/-- Appending a final newline to a text only adds a blank final line:
after dropping blank lines, the splitlines loop yields the same lines. -/
theorem slAux_filter_newline (P : List Char → Bool) (hP : P [] = false) :
    ∀ (cs acc : List Char),
      (slAux (cs ++ ['\n']) acc).filter P = (slAux cs acc).filter P := by
  intro cs
  induction cs with
  | nil =>
    intro acc
    by_cases hacc : acc = []
    · subst hacc; simp [slAux, hP]
    · simp [slAux, hacc]
  | cons c rest ih =>
    intro acc
    by_cases hc : c = '\n'
    · subst hc
      simp only [List.cons_append, slAux, if_pos rfl]
      by_cases hrev : P acc.reverse
      · simp [List.filter_cons, hrev, ih]
      · simp [List.filter_cons, hrev, ih]
    · simp only [List.cons_append, slAux, if_neg hc]
      exact ih (c :: acc)

/-- Helper: `checkCodeDifferByJustEmptyLines` reports a pure trailing-newline
insertion as a blank-line-only difference. -/
theorem checkDiffer_trailing_newline (c : String) :
    checkCodeDifferByJustEmptyLines (c ++ "\n") c = true := by
  have hdata : (c ++ "\n").toList = c.toList ++ ['\n'] := by
    show (c ++ "\n").data = c.data ++ ['\n']
    rw [String.data_append]
  unfold checkCodeDifferByJustEmptyLines pySplitlines
  rw [hdata, List.filter_map, List.filter_map,
    slAux_filter_newline ((fun l => !isBlankLine l) ∘ String.mk) rfl]
  simp

/-- A string beginning with a newline is never empty. -/
theorem newline_append_ne_empty (s : String) : ("\n" ++ s) ≠ "" := by
  intro h
  have hlen : ("\n" ++ s).length = ("" : String).length := by rw [h]
  rw [String.length_append] at hlen
  have h1 : ("\n" : String).length = 1 := rfl
  have h0 : ("" : String).length = 0 := rfl
  omega

/-- Claim C3: provided the first parsed file key is present in the content
map, post-apply validation keeps a non-empty final diff exactly when the
new content passes the syntax check and is not a blank-line-only change of
the original; the raw unified diff is produced in all cases; and a patch
that only appends a trailing newline (blank line) is always classified as
a blank-line-only change, hence rejected. -/
theorem c3_validation_accepts_iff
    (checkSyntax : String → Bool) (fakeGitRepo : String → String → String → String)
    (parseE : List String → String → Option String)
    (parseD : List String → String → List (Nat × Nat) → Option String)
    (k : String) (cmds : List String) (rest : List (String × List String))
    (fileContents : List (String × String))
    (fileLocIntervals : List (String × List (Nat × Nat))) (diffFormat : Bool)
    (content : String)
    (hk : assocGet fileContents k = some content) :
    (postProcessRawOutput checkSyntax fakeGitRepo parseE parseD ((k, cmds) :: rest)
        fileContents fileLocIntervals diffFormat).2.1
      = "\n" ++ (fakeGitRepo k content
          (postProcessMultifileRepair parseE parseD ((k, cmds) :: rest) fileContents
            fileLocIntervals diffFormat).2).replace "\\ No newline at end of file\n" ""
    ∧ ((postProcessRawOutput checkSyntax fakeGitRepo parseE parseD ((k, cmds) :: rest)
          fileContents fileLocIntervals diffFormat).1 ≠ ""
        ↔ (checkSyntax (postProcessMultifileRepair parseE parseD ((k, cmds) :: rest)
              fileContents fileLocIntervals diffFormat).2 = true
           ∧ checkCodeDifferByJustEmptyLines
               (postProcessMultifileRepair parseE parseD ((k, cmds) :: rest)
                 fileContents fileLocIntervals diffFormat).2 content = false))
    ∧ (∀ c : String, checkCodeDifferByJustEmptyLines (c ++ "\n") c = true) := by
  have hfst := ppmr_fst parseE parseD k cmds rest fileContents fileLocIntervals diffFormat
  refine ⟨?_, ?_, checkDiffer_trailing_newline⟩
  · simp only [postProcessRawOutput, hfst, hk]
  · simp only [postProcessRawOutput, hfst, hk]
    set nc := (postProcessMultifileRepair parseE parseD ((k, cmds) :: rest) fileContents
      fileLocIntervals diffFormat).2 with hnc
    by_cases hs : checkSyntax nc = true
    · by_cases hd : checkCodeDifferByJustEmptyLines nc content = true
      · simp [hs, hd]
      · simp only [Bool.not_eq_true] at hd
        simp [hs, hd, newline_append_ne_empty]
    · simp only [Bool.not_eq_true] at hs
      simp [hs]

/-- Witness for C3 at a concrete one-file command mapping. -/
theorem c3_validation_accepts_iff_witness :
    assocGet [("a.py", "x")] "a.py" = some "x"
    ∧ ((postProcessRawOutput (fun _ => true) (fun _ _ _ => "d") (fun _ _ => some "y")
          (fun _ _ _ => some "y") [("a.py", ["z"])] [("a.py", "x")] [] false).2.1
        = "\n" ++ ((fun (_ _ _ : String) => "d") "a.py" "x"
            (postProcessMultifileRepair (fun _ _ => some "y") (fun _ _ _ => some "y")
              [("a.py", ["z"])] [("a.py", "x")] [] false).2).replace
            "\\ No newline at end of file\n" ""
      ∧ ((postProcessRawOutput (fun _ => true) (fun _ _ _ => "d") (fun _ _ => some "y")
            (fun _ _ _ => some "y") [("a.py", ["z"])] [("a.py", "x")] [] false).1 ≠ ""
          ↔ ((fun (_ : String) => true)
                (postProcessMultifileRepair (fun _ _ => some "y") (fun _ _ _ => some "y")
                  [("a.py", ["z"])] [("a.py", "x")] [] false).2 = true
             ∧ checkCodeDifferByJustEmptyLines
                 (postProcessMultifileRepair (fun _ _ => some "y") (fun _ _ _ => some "y")
                   [("a.py", ["z"])] [("a.py", "x")] [] false).2 "x" = false))
      ∧ (∀ c : String, checkCodeDifferByJustEmptyLines (c ++ "\n") c = true)) :=
  ⟨rfl,
   c3_validation_accepts_iff (fun _ => true) (fun _ _ _ => "d") (fun _ _ => some "y")
     (fun _ _ _ => some "y") "a.py" ["z"] [] [("a.py", "x")] [] false "x" rfl⟩

/-! ## Claims C5 / C10: the delimiter-balance end-line scan -/

/-- Total `'('` count over a run of lines. -/
def sumOpens (ls : List String) : Nat := (ls.map (fun l => countChar l '(')).sum

/-- Total `')'` count over a run of lines. -/
def sumCloses (ls : List String) : Nat := (ls.map (fun l => countChar l ')')).sum

/-- Non-accumulator description of the scan's stopping condition at 0-based
offset `k` into the scanned suffix, with initial counter values `o`/`c`:
the line exists, is non-empty, the parenthesis totals up to and including
it balance against the initial counters, and it ends in `';'`. -/
def stopWith (scanned : List String) (o c : Nat) (k : Nat) : Bool :=
  match scanned.get? k with
  | none => false
  | some l =>
    if l = "" then false
    else
      decide (o + sumOpens (scanned.take (k + 1)) = c + sumCloses (scanned.take (k + 1)))
        && decide (l.toList.getLast? = some ';')

/-- Reference form of `calculate_end_line`: the first scanned offset
satisfying the stopping condition determines the end line; absent any such
offset the start line is returned. -/
def specEndLine (codes : String) (startLine : Nat) : Nat :=
  let scanned := (pySplitlines codes).drop (startLine - 1)
  match (List.range scanned.length).find? (stopWith scanned 0 0) with
  | some k => startLine + k
  | none => startLine

/-- Shifting the stopping condition past the first scanned line folds that
line's parenthesis counts into the initial counters. -/
theorem stopWith_succ (l : String) (rest : List String) (o c k : Nat) :
    stopWith (l :: rest) o c (k + 1)
      = stopWith rest (o + countChar l '(') (c + countChar l ')') k := by
  unfold stopWith
  rw [List.get?_cons_succ]
  cases rest.get? k with
  | none => rfl
  | some l' =>
    have e1 : o + sumOpens (List.take (k + 1 + 1) (l :: rest))
        = o + countChar l '(' + sumOpens (List.take (k + 1) rest) := by
      simp [List.take_succ_cons, sumOpens]
      omega
    have e2 : c + sumCloses (List.take (k + 1 + 1) (l :: rest))
        = c + countChar l ')' + sumCloses (List.take (k + 1) rest) := by
      simp [List.take_succ_cons, sumCloses]
      omega
    rw [e1, e2]

/-- Behaviour of `find?` through the successor embedding of `List.range`. -/
theorem find_range_succ (n : Nat) (p : Nat → Bool) (q : Nat → Bool)
    (h : ∀ k, p (k + 1) = q k) :
    (List.range (n + 1)).find? p
      = if p 0 = true then some 0 else ((List.range n).find? q).map Nat.succ := by
  rw [List.range_succ_eq_map, List.find?_cons]
  cases hp : p 0 with
  | true => simp
  | false =>
    simp only [Bool.false_eq_true, if_false]
    rw [List.find?_map]
    have hq : p ∘ Nat.succ = q := funext h
    rw [hq]

/-- The accumulator loop of `calculate_end_line` equals the first-offset
description: it returns `i + k + 1` for the first offset `k` at which the
stopping condition holds, and the fallback `e` when none does. -/
theorem celLoop_eq_find :
    ∀ (scanned : List String) (i o c e : Nat),
      celLoop scanned i o c e
        = match (List.range scanned.length).find? (stopWith scanned o c) with
          | some k => i + k + 1
          | none => e := by
  intro scanned
  induction scanned with
  | nil => intro i o c e; simp [celLoop]
  | cons l rest ih =>
    intro i o c e
    have hshift := find_range_succ rest.length (stopWith (l :: rest) o c)
      (stopWith rest (o + countChar l '(') (c + countChar l ')'))
      (fun k => stopWith_succ l rest o c k)
    by_cases hl : l = ""
    · subst hl
      have hp0 : stopWith ("" :: rest) o c 0 = false := by
        unfold stopWith
        rfl
      have hcel : celLoop ("" :: rest) i o c e = celLoop rest (i + 1) o c e := by
        simp [celLoop]
      have hqeq : stopWith rest (o + countChar "" '(') (c + countChar "" ')')
          = stopWith rest o c := rfl
      rw [hqeq] at hshift
      rw [hcel, ih (i + 1) o c e, List.length_cons, hshift, hp0]
      simp only [Bool.false_eq_true, if_false]
      cases (List.range rest.length).find? (stopWith rest o c) with
      | none => rfl
      | some k =>
        simp only [Option.map_some', Nat.succ_eq_add_one]
        show i + 1 + k + 1 = i + (k + 1) + 1
        omega
    · have hcel : celLoop (l :: rest) i o c e
          = if o + countChar l '(' = c + countChar l ')'
               ∧ l.toList.getLast? = some ';'
            then i + 1
            else celLoop rest (i + 1) (o + countChar l '(') (c + countChar l ')') e := by
        simp only [celLoop]
        rw [if_neg hl]
      have hp0 : stopWith (l :: rest) o c 0
          = (decide (o + countChar l '(' = c + countChar l ')')
              && decide (l.toList.getLast? = some ';')) := by
        unfold stopWith
        simp only [List.get?_cons_zero, if_neg hl]
        simp [sumOpens, sumCloses]
      by_cases hstop : o + countChar l '(' = c + countChar l ')'
          ∧ l.toList.getLast? = some ';'
      · have htrue : stopWith (l :: rest) o c 0 = true := by
          rw [hp0]
          rw [decide_eq_true hstop.1, decide_eq_true hstop.2]
          rfl
        rw [hcel, if_pos hstop, List.length_cons, hshift, htrue]
        simp
      · have hfalse : stopWith (l :: rest) o c 0 = false := by
          rw [hp0]
          rcases Decidable.not_and_iff_or_not.mp hstop with h | h
          · rw [decide_eq_false h, Bool.false_and]
          · rw [decide_eq_false h, Bool.and_false]
        rw [hcel, if_neg hstop, List.length_cons, hshift, hfalse]
        rw [ih (i + 1) (o + countChar l '(') (c + countChar l ')') e]
        simp only [Bool.false_eq_true, if_false]
        cases (List.range rest.length).find?
            (stopWith rest (o + countChar l '(') (c + countChar l ')')) with
        | none => rfl
        | some k =>
          simp only [Option.map_some', Nat.succ_eq_add_one]
          show i + 1 + k + 1 = i + (k + 1) + 1
          omega

/-- Claim C5, counterexample.  Per the claim's words, the scan should stop
at the first line whose accumulated open-count equals its accumulated
close-count; the reference loop below implements exactly that.  On
`"int x\n= 5;"` the first line already balances (no parentheses at all),
so the claim predicts end line 1, but the source also requires the line to
end in `';'` and therefore returns 2. -/
def claimEndLineLoop : List String → Nat → Nat → Nat → Nat → Nat
  | [], _, _, _, e => e
  | line :: rest, i, opens, closes, e =>
    let o := opens + countChar line '('
    let c := closes + countChar line ')'
    if o = c then i + 1 else claimEndLineLoop rest (i + 1) o c e

/-- End-line computation following the claim's words (stop at the first
balanced line, with no semicolon requirement). -/
def claimEndLine (codes : String) (startLine : Nat) : Nat :=
  claimEndLineLoop ((pySplitlines codes).drop (startLine - 1)) (startLine - 1) 0 0 startLine

/-- Claim C5, counterexample: the source's scan does not stop at the first
balance point. -/
theorem c5_counterexample :
    calculateEndLine "int x\n= 5;" 1 = 2
    ∧ claimEndLine "int x\n= 5;" 1 = 1
    ∧ (2 : Nat) ≠ 1 := by
  refine ⟨by decide, by decide, by decide⟩

/-- Claim C5, amended: for every source text and start line `≥ 1`, the scan
stops at the first non-empty scanned line at which the accumulated
open-parenthesis count equals the accumulated close-parenthesis count AND
whose last character is a semicolon; if no scanned line qualifies, the
start line itself is returned. -/
theorem c5_amended (codes : String) (startLine : Nat) (h1 : 1 ≤ startLine) :
    calculateEndLine codes startLine = specEndLine codes startLine := by
  unfold calculateEndLine specEndLine
  rw [celLoop_eq_find]
  dsimp only
  cases List.find? (stopWith ((pySplitlines codes).drop (startLine - 1)) 0 0)
      (List.range ((pySplitlines codes).drop (startLine - 1)).length) with
  | none => rfl
  | some k =>
    show startLine - 1 + k + 1 = startLine + k
    omega

/-- Witness for C5 (amended) at the counterexample input. -/
theorem c5_amended_witness :
    1 ≤ 1 ∧ calculateEndLine "int x\n= 5;" 1 = specEndLine "int x\n= 5;" 1 :=
  ⟨by decide, c5_amended "int x\n= 5;" 1 (by decide)⟩

/-- Claim C10: for every source text and in-range start line, the scan
terminates (it is a total function) and returns an end line between the
start line and the number of lines; empty lines are skipped before any
character access. -/
theorem c10_end_line_bounds (codes : String) (startLine : Nat)
    (h1 : 1 ≤ startLine) (h2 : startLine ≤ (pySplitlines codes).length) :
    startLine ≤ calculateEndLine codes startLine
    ∧ calculateEndLine codes startLine ≤ (pySplitlines codes).length := by
  unfold calculateEndLine
  rw [celLoop_eq_find]
  cases hf : List.find? (stopWith ((pySplitlines codes).drop (startLine - 1)) 0 0)
      (List.range ((pySplitlines codes).drop (startLine - 1)).length) with
  | none =>
    show startLine ≤ startLine ∧ startLine ≤ (pySplitlines codes).length
    omega
  | some k =>
    have hmem : k ∈ List.range ((pySplitlines codes).drop (startLine - 1)).length :=
      List.mem_of_find?_eq_some hf
    rw [List.mem_range, List.length_drop] at hmem
    show startLine ≤ startLine - 1 + k + 1
      ∧ startLine - 1 + k + 1 ≤ (pySplitlines codes).length
    omega

/-- Witness for C10 at a concrete in-range input. -/
theorem c10_end_line_bounds_witness :
    (1 ≤ 1 ∧ 1 ≤ (pySplitlines "a;").length)
    ∧ (1 ≤ calculateEndLine "a;" 1
       ∧ calculateEndLine "a;" 1 ≤ (pySplitlines "a;").length) :=
  ⟨⟨by decide, by decide⟩, c10_end_line_bounds "a;" 1 (by decide) (by decide)⟩

/-! ## Claims C4 / C8: spans produced by `parse_java_file` -/

/-- The `(start_line, end_line)` pairs of the dicts that carry both keys
(all class dicts do; method dicts have no `end_line`). -/
def classSpans (dicts : List JDict) : List (Nat × Nat) :=
  dicts.filterMap fun d =>
    match dictGet d "start_line", dictGet d "end_line" with
    | some (.n s), some (.n e) => some (s, e)
    | _, _ => none

/-- Chained-span property: each span ends one line before the next span
starts, and the final span ends at line `n`. -/
def SpanChain : List (Nat × Nat) → Nat → Prop
  | [], _ => True
  | [(_, e)], n => e = n
  | (_, e1) :: (s2, e2) :: rest, n => e1 = s2 - 1 ∧ SpanChain ((s2, e2) :: rest) n

theorem classSpans_cons_class (nm : String) (s e : Nat) (t : List String)
    (ds : List JDict) :
    classSpans (mkClassDict nm s e t :: ds) = (s, e) :: classSpans ds := rfl

/-- One step of the `parse_java_file` loop on a class-matching line. -/
theorem parseJavaLoop_cons_class (L : List String) (line : String)
    (rest : List String) (i : Nat) (cur : Option (String × Nat)) (cname : String)
    (h : classMatch line = some cname) :
    parseJavaLoop L (line :: rest) i cur
      = ((match cur with
          | some (pname, psl) =>
            mkClassDict pname psl (i - 1) (pySlice L (psl - 1) (i - 1))
              :: (parseJavaLoop L rest (i + 1) (some (cname, i))).1
          | none => (parseJavaLoop L rest (i + 1) (some (cname, i))).1),
         (parseJavaLoop L rest (i + 1) (some (cname, i))).2) := by
  simp only [parseJavaLoop, h]

/-- One step of the loop on a method-matching line. -/
theorem parseJavaLoop_cons_method (L : List String) (line : String)
    (rest : List String) (i : Nat) (cur : Option (String × Nat)) (mname : String)
    (hc : classMatch line = none) (hm : methodMatch line = some mname) :
    parseJavaLoop L (line :: rest) i cur
      = ((parseJavaLoop L rest (i + 1) cur).1,
         mkMethodDict mname i [line] :: (parseJavaLoop L rest (i + 1) cur).2) := by
  simp only [parseJavaLoop, hc, hm]

/-- One step of the loop on a line matching neither pattern. -/
theorem parseJavaLoop_cons_other (L : List String) (line : String)
    (rest : List String) (i : Nat) (cur : Option (String × Nat))
    (hc : classMatch line = none) (hm : methodMatch line = none) :
    parseJavaLoop L (line :: rest) i cur = parseJavaLoop L rest (i + 1) cur := by
  simp only [parseJavaLoop, hc, hm]

/-- The loop's class spans always satisfy the chain property: each class
ends right before the next one starts and the last one ends at the last
line; moreover with a pending class `(nm, sl)` the first produced span
starts at `sl`. -/
theorem parseJavaLoop_chain (L : List String) :
    ∀ (rest : List String) (i : Nat) (cur : Option (String × Nat)),
      SpanChain (classSpans (parseJavaLoop L rest i cur).1) L.length
      ∧ (∀ nm sl, cur = some (nm, sl) →
          ∃ e tail, classSpans (parseJavaLoop L rest i cur).1 = (sl, e) :: tail) := by
  intro rest
  induction rest with
  | nil =>
    intro i cur
    cases cur with
    | none => exact ⟨trivial, fun nm sl h => by cases h⟩
    | some p =>
      obtain ⟨nm, sl⟩ := p
      refine ⟨?_, fun nm' sl' h => ?_⟩
      · show SpanChain [(sl, L.length)] L.length
        rfl
      · cases h
        exact ⟨L.length, [], rfl⟩
  | cons line rest' ih =>
    intro i cur
    cases hcm : classMatch line with
    | some cname =>
      obtain ⟨ihchain, ihhead⟩ := ih (i + 1) (some (cname, i))
      obtain ⟨e, tail, hspan⟩ := ihhead cname i rfl
      rw [parseJavaLoop_cons_class L line rest' i cur cname hcm]
      cases cur with
      | none =>
        exact ⟨ihchain, fun nm sl h => by cases h⟩
      | some p =>
        obtain ⟨pname, psl⟩ := p
        refine ⟨?_, fun nm' sl' h => ?_⟩
        · show SpanChain
            (classSpans (mkClassDict pname psl (i - 1) (pySlice L (psl - 1) (i - 1))
              :: (parseJavaLoop L rest' (i + 1) (some (cname, i))).1)) L.length
          rw [classSpans_cons_class, hspan]
          exact ⟨rfl, hspan ▸ ihchain⟩
        · cases h
          exact ⟨i - 1, (i, e) :: tail, by rw [classSpans_cons_class, hspan]⟩
    | none =>
      cases hmm : methodMatch line with
      | some mname =>
        obtain ⟨ihchain, ihhead⟩ := ih (i + 1) cur
        rw [parseJavaLoop_cons_method L line rest' i cur mname hcm hmm]
        exact ⟨ihchain, fun nm sl h => ihhead nm sl h⟩
      | none =>
        rw [parseJavaLoop_cons_other L line rest' i cur hcm hmm]
        exact ih (i + 1) cur

/-- The loop's class spans are well-ordered (`start ≤ end`) whenever the
pending class start is strictly before the current line number and the
line number bookkeeping is consistent with the input. -/
theorem parseJavaLoop_spans_le (L : List String) :
    ∀ (rest : List String) (i : Nat) (cur : Option (String × Nat)),
      i + rest.length = L.length + 1 →
      (∀ nm sl, cur = some (nm, sl) → sl < i ∧ sl ≤ L.length) →
      ∀ sp ∈ classSpans (parseJavaLoop L rest i cur).1, sp.1 ≤ sp.2 := by
  intro rest
  induction rest with
  | nil =>
    intro i cur hi hcur sp hsp
    cases cur with
    | none => cases hsp
    | some p =>
      obtain ⟨nm, sl⟩ := p
      obtain ⟨-, hle⟩ := hcur nm sl rfl
      have : sp = (sl, L.length) := by
        have hspans : classSpans (parseJavaLoop L [] i (some (nm, sl))).1
            = [(sl, L.length)] := rfl
        rw [hspans] at hsp
        exact List.mem_singleton.mp hsp
      rw [this]
      exact hle
  | cons line rest' ih =>
    intro i cur hi hcur sp hsp
    rw [List.length_cons] at hi
    cases hcm : classMatch line with
    | some cname =>
      rw [parseJavaLoop_cons_class L line rest' i cur cname hcm] at hsp
      have hnext : ∀ nm sl, (some (cname, i) : Option (String × Nat)) = some (nm, sl) →
          sl < i + 1 ∧ sl ≤ L.length := by
        intro nm sl h
        cases h
        omega
      cases cur with
      | none => exact ih (i + 1) (some (cname, i)) (by omega) hnext sp hsp
      | some p =>
        obtain ⟨pname, psl⟩ := p
        obtain ⟨hlt, -⟩ := hcur pname psl rfl
        rw [show classSpans (mkClassDict pname psl (i - 1) (pySlice L (psl - 1) (i - 1))
            :: (parseJavaLoop L rest' (i + 1) (some (cname, i))).1)
          = (psl, i - 1) :: classSpans (parseJavaLoop L rest' (i + 1) (some (cname, i))).1
          from rfl] at hsp
        rcases List.mem_cons.mp hsp with rfl | hsp'
        · show psl ≤ i - 1
          omega
        · exact ih (i + 1) (some (cname, i)) (by omega) hnext sp hsp'
    | none =>
      have hnext : ∀ nm sl, cur = some (nm, sl) → sl < i + 1 ∧ sl ≤ L.length := by
        intro nm sl h
        obtain ⟨h1, h2⟩ := hcur nm sl h
        omega
      cases hmm : methodMatch line with
      | some mname =>
        rw [parseJavaLoop_cons_method L line rest' i cur mname hcm hmm] at hsp
        exact ih (i + 1) cur (by omega) hnext sp hsp
      | none =>
        rw [parseJavaLoop_cons_other L line rest' i cur hcm hmm] at hsp
        exact ih (i + 1) cur (by omega) hnext sp hsp

/-- Modelled from the spec's words, for comparison only: the "line of the
class's closing scope" — the first line, scanning from the class's start
line, at which the running `'{'` count is positive and equals the running
`'}'` count. -/
def cslLoop : List String → Nat → Nat → Nat → Option Nat
  | [], _, _, _ => none
  | l :: rest, i, o, c =>
    let o' := o + countChar l '\x7b'
    let c' := c + countChar l '\x7d'
    if 0 < o' ∧ o' = c' then some i else cslLoop rest (i + 1) o' c'

/-- The closing-scope line of a brace-delimited body starting at
`startLine` (1-based), per the spec's description. -/
def closingScopeLine (lines : List String) (startLine : Nat) : Option Nat :=
  cslLoop (lines.drop (startLine - 1)) startLine 0 0

/-- Claim C4, counterexample: in the file
`["class A {", "}", "", "// end"]` the class's closing brace is on line 2,
but `parse_java_file` reports `end_line = 4` (the last line of the file):
the class's span is cut at the next class declaration or at end of file,
never at the closing brace. -/
theorem c4_counterexample :
    (parseJavaFile ["class A \x7b", "\x7d", "", "// end"]).1
      = [mkClassDict "A" 1 4 ["class A \x7b", "\x7d", "", "// end"]]
    ∧ closingScopeLine ["class A \x7b", "\x7d", "", "// end"] 1 = some 2
    ∧ dictGet (mkClassDict "A" 1 4 ["class A \x7b", "\x7d", "", "// end"]) "end_line"
        = some (PVal.n 4)
    ∧ (4 : Nat) ≠ 2 := by
  exact ⟨by decide, by decide, rfl, by decide⟩

/-- Claim C4, amended: for every Java input, each class declaration's
reported `end_line` is the line immediately before the next extracted
class declaration's start line, and the last class's `end_line` is the
file's last line — the closing brace of the class body is never
located. -/
theorem c4_amended (lines : List String) :
    SpanChain (classSpans (parseJavaFile lines).1) lines.length :=
  (parseJavaLoop_chain lines lines 1 none).1

/-! ## Claim C8: position well-formedness of the Python AST

CPython guarantees `lineno ≤ end_lineno` and that a child's range is
contained in its parent's; the guarantee is embedded as a checkable
predicate and assumed of parser input. -/

/-- Accessor for `node.lineno`. -/
def pyLineno : PyNode → Nat
  | .classDef _ sl _ _ => sl
  | .functionDef _ sl _ _ => sl
  | .asyncFunctionDef _ sl _ _ => sl
  | .other sl _ _ => sl

/-- Accessor for `node.end_lineno`. -/
def pyEndLineno : PyNode → Nat
  | .classDef _ _ el _ => el
  | .functionDef _ _ el _ => el
  | .asyncFunctionDef _ _ el _ => el
  | .other _ el _ => el

mutual

/-- CPython position well-formedness of one node: its own range is ordered
and all children lie within it. -/
def pyWFB : PyNode → Bool
  | .classDef _ sl el b => decide (sl ≤ el) && pyWFLB sl el b
  | .functionDef _ sl el b => decide (sl ≤ el) && pyWFLB sl el b
  | .asyncFunctionDef _ sl el b => decide (sl ≤ el) && pyWFLB sl el b
  | .other sl el b => decide (sl ≤ el) && pyWFLB sl el b

/-- Well-formedness of a child list relative to the parent range. -/
def pyWFLB (psl pel : Nat) : List PyNode → Bool
  | [] => true
  | n :: rest =>
    decide (psl ≤ pyLineno n) && decide (pyEndLineno n ≤ pel) && pyWFB n
      && pyWFLB psl pel rest

end

theorem pyWFB_parts (n : PyNode) (h : pyWFB n = true) :
    pyLineno n ≤ pyEndLineno n
    ∧ pyWFLB (pyLineno n) (pyEndLineno n) (pyChildren n) = true := by
  cases n <;>
    simp only [pyWFB, Bool.and_eq_true, decide_eq_true_eq] at h <;>
    exact ⟨h.1, h.2⟩

theorem pyWFLB_mem (psl pel : Nat) :
    ∀ (ns : List PyNode), pyWFLB psl pel ns = true →
      ∀ c ∈ ns, psl ≤ pyLineno c ∧ pyEndLineno c ≤ pel ∧ pyWFB c = true := by
  intro ns
  induction ns with
  | nil => intro _ c hc; cases hc
  | cons n rest ih =>
    intro h c hc
    simp only [pyWFLB, Bool.and_eq_true, decide_eq_true_eq] at h
    rcases List.mem_cons.mp hc with rfl | hc'
    · exact ⟨h.1.1.1, h.1.1.2, h.1.2⟩
    · exact ih h.2 c hc'

/-- The BFS walk only produces well-formed nodes from a well-formed
queue. -/
theorem walkFuel_wf :
    ∀ (k : Nat) (q : List PyNode), (∀ n ∈ q, pyWFB n = true) →
      ∀ m ∈ walkFuel k q, pyWFB m = true := by
  intro k
  induction k with
  | zero => intro q _ m hm; cases hm
  | succ k ih =>
    intro q hq m hm
    cases q with
    | nil => cases hm
    | cons n rest =>
      rw [show walkFuel (k + 1) (n :: rest) = n :: walkFuel k (rest ++ pyChildren n)
        from rfl] at hm
      rcases List.mem_cons.mp hm with rfl | hm'
      · exact hq _ (List.mem_cons_self _ _)
      · refine ih (rest ++ pyChildren n) ?_ m hm'
        intro x hx
        rcases List.mem_append.mp hx with hx' | hx'
        · exact hq x (List.mem_cons_of_mem n hx')
        · have hn := pyWFB_parts n (hq n (List.mem_cons_self n rest))
          exact (pyWFLB_mem (pyLineno n) (pyEndLineno n) (pyChildren n) hn.2 x hx').2.2

/-- Span ordering and containment, for one class record. -/
def PyClassOk (ci : PyClassInfo) : Prop :=
  ci.start_line ≤ ci.end_line
  ∧ ∀ m ∈ ci.methods,
      m.start_line ≤ m.end_line
      ∧ ci.start_line ≤ m.start_line ∧ m.end_line ≤ ci.end_line

/-- The traversal loop of `parse_python_file` only emits well-ordered,
contained spans from well-formed nodes. -/
theorem parsePyLoop_ok (lines : List String) :
    ∀ (ws : List PyNode) (cm : List String), (∀ n ∈ ws, pyWFB n = true) →
      (∀ ci ∈ (parsePyLoop lines ws cm).1, PyClassOk ci)
      ∧ (∀ fi ∈ (parsePyLoop lines ws cm).2, fi.start_line ≤ fi.end_line) := by
  intro ws
  induction ws with
  | nil =>
    intro cm _
    refine ⟨fun ci hci => ?_, fun fi hfi => ?_⟩
    · simp [parsePyLoop] at hci
    · simp [parsePyLoop] at hfi
  | cons n rest ihw =>
    intro cm hwf
    have hn := hwf n (List.mem_cons_self n rest)
    have hrest : ∀ x ∈ rest, pyWFB x = true :=
      fun x hx => hwf x (List.mem_cons_of_mem n hx)
    cases n with
    | classDef cname csl cel cbody =>
      have hparts := pyWFB_parts (.classDef cname csl cel cbody) hn
      obtain ⟨ihc, ihf⟩ := ihw (cm ++ pyMethodNames cbody) hrest
      refine ⟨fun ci hci => ?_, ihf⟩
      rcases List.mem_cons.mp hci with rfl | hci'
      · refine ⟨hparts.1, fun m hm => ?_⟩
        obtain ⟨node, hnode, heq⟩ := List.mem_filterMap.mp hm
        cases node with
        | functionDef mn msl mel mb =>
          have heq2 : (⟨mn, msl, mel, pySlice lines (msl - 1) mel⟩ : PyFuncInfo) = m :=
            Option.some.inj heq
          have hmem := pyWFLB_mem csl cel cbody hparts.2 _ hnode
          have hmwf := pyWFB_parts _ hmem.2.2
          subst heq2
          exact ⟨hmwf.1, hmem.1, hmem.2.1⟩
        | classDef a b c d => cases heq
        | asyncFunctionDef a b c d => cases heq
        | other a b c => cases heq
      · exact ihc ci hci'
    | functionDef fname fsl fel fbody =>
      have hparts := pyWFB_parts (.functionDef fname fsl fel fbody) hn
      obtain ⟨ihc, ihf⟩ := ihw cm hrest
      by_cases hin : fname ∈ cm
      · rw [show parsePyLoop lines (PyNode.functionDef fname fsl fel fbody :: rest) cm
            = parsePyLoop lines rest cm from by
          simp only [parsePyLoop]
          rw [if_pos hin]]
        exact ⟨ihc, ihf⟩
      · rw [show parsePyLoop lines (PyNode.functionDef fname fsl fel fbody :: rest) cm
            = ((parsePyLoop lines rest cm).1,
               ⟨fname, fsl, fel, pySlice lines (fsl - 1) fel⟩
                 :: (parsePyLoop lines rest cm).2) from by
          simp only [parsePyLoop]
          rw [if_neg hin]]
        refine ⟨ihc, fun fi hfi => ?_⟩
        rcases List.mem_cons.mp hfi with rfl | hfi'
        · exact hparts.1
        · exact ihf fi hfi'
    | asyncFunctionDef a b c d => exact ihw cm hrest
    | other a b c => exact ihw cm hrest

/-- Claim C8, counterexample: the Java parser's method records carry no
`end_line` key at all, so a Java method declaration cannot satisfy
`start_line ≤ end_line` (nor any span-containment statement): on the file
`["class A {", "  foo() {", "  }", "}"]` the extracted method entry for
`foo` has no `end_line`. -/
theorem c8_counterexample :
    ∃ d ∈ (parseJavaFile ["class A \x7b", "  foo() \x7b", "  \x7d", "\x7d"]).2.1,
      dictGet d "end_line" = none := by
  refine ⟨mkMethodDict "foo" 2 ["  foo() \x7b"], ?_, rfl⟩
  have h : (parseJavaFile ["class A \x7b", "  foo() \x7b", "  \x7d", "\x7d"]).2.1
      = [mkMethodDict "foo" 2 ["  foo() \x7b"]] := by decide
  rw [h]
  exact List.mem_singleton.mpr rfl

/-- Claim C8, amended: every declaration that carries both `start_line`
and `end_line` satisfies `start_line ≤ end_line`: for the Python parser
(under CPython's position guarantees, embedded as `pyWFB`) classes,
methods and top-level functions all do, and each method's span is
contained in its owner class's span; for the Java parser the class spans
satisfy `start_line ≤ end_line`, while its method entries carry no
`end_line` key (see the counterexample) so the invariant does not extend
to them. -/
theorem c8_amended :
    (∀ (fileContent : String) (moduleBody : List PyNode),
      (∀ n ∈ moduleBody, pyWFB n = true) →
      (∀ ci ∈ (parsePythonFile fileContent (some moduleBody)).1, PyClassOk ci)
      ∧ (∀ fi ∈ (parsePythonFile fileContent (some moduleBody)).2.1,
          fi.start_line ≤ fi.end_line))
    ∧ (∀ lines : List String,
        ∀ sp ∈ classSpans (parseJavaFile lines).1, sp.1 ≤ sp.2) := by
  constructor
  · intro fileContent moduleBody hwf
    have hwalk := walkFuel_wf (pySizeL moduleBody) moduleBody hwf
    exact parsePyLoop_ok (pySplitlines fileContent) (pyWalk moduleBody) [] hwalk
  · intro lines sp hsp
    exact parseJavaLoop_spans_le lines lines 1 none (by omega)
      (fun nm sl h => by cases h) sp hsp

/-- Witness for C8 (amended) at a concrete well-formed module. -/
theorem c8_amended_witness :
    (∀ n ∈ [PyNode.classDef "A" 1 3 [PyNode.functionDef "m" 2 3 []]], pyWFB n = true)
    ∧ ((∀ ci ∈ (parsePythonFile "class A:\n    def m():\n        pass"
          (some [PyNode.classDef "A" 1 3 [PyNode.functionDef "m" 2 3 []]])).1,
          PyClassOk ci)
       ∧ (∀ fi ∈ (parsePythonFile "class A:\n    def m():\n        pass"
            (some [PyNode.classDef "A" 1 3 [PyNode.functionDef "m" 2 3 []]])).2.1,
            fi.start_line ≤ fi.end_line)) :=
  ⟨by decide,
   c8_amended.1 "class A:\n    def m():\n        pass"
     [PyNode.classDef "A" 1 3 [PyNode.functionDef "m" 2 3 []]] (by decide)⟩

/-! ## Claim C9: class-method names shadow later top-level functions -/

/-- Dropping a function node whose name is already in the accumulated
`class_methods` set leaves the loop's output unchanged — the node is
silently skipped. -/
theorem parsePyLoop_skips_member (lines : List String) (fname : String)
    (fsl fel : Nat) (fbody : List PyNode) :
    ∀ (ws₂ ws₃ : List PyNode) (cm : List String), fname ∈ cm →
      parsePyLoop lines (ws₂ ++ PyNode.functionDef fname fsl fel fbody :: ws₃) cm
        = parsePyLoop lines (ws₂ ++ ws₃) cm := by
  intro ws₂
  induction ws₂ with
  | nil =>
    intro ws₃ cm hmem
    simp only [List.nil_append]
    rw [show parsePyLoop lines (PyNode.functionDef fname fsl fel fbody :: ws₃) cm
        = if fname ∈ cm then parsePyLoop lines ws₃ cm
          else ((parsePyLoop lines ws₃ cm).1,
            ⟨fname, fsl, fel, pySlice lines (fsl - 1) fel⟩ :: (parsePyLoop lines ws₃ cm).2)
        from by simp only [parsePyLoop]]
    rw [if_pos hmem]
  | cons n rest ih =>
    intro ws₃ cm hmem
    cases n with
    | classDef cname csl cel cbody =>
      simp only [List.cons_append, parsePyLoop, List.append_eq]
      rw [ih ws₃ (cm ++ pyMethodNames cbody) (List.mem_append_left _ hmem)]
    | functionDef gname gsl gel gbody =>
      simp only [List.cons_append, parsePyLoop, List.append_eq]
      by_cases hg : gname ∈ cm
      · rw [if_pos hg, if_pos hg, ih ws₃ cm hmem]
      · rw [if_neg hg, if_neg hg, ih ws₃ cm hmem]
    | asyncFunctionDef a b c d =>
      simp only [List.cons_append, parsePyLoop, List.append_eq]
      rw [ih ws₃ cm hmem]
    | other a b c =>
      simp only [List.cons_append, parsePyLoop, List.append_eq]
      rw [ih ws₃ cm hmem]

/-- A concrete module in which a top-level `def f` follows a class with a
method `f` (in document, hence traversal, order). -/
def shadowedModule : List PyNode :=
  [PyNode.classDef "A" 1 3 [PyNode.functionDef "f" 2 3 []],
   PyNode.functionDef "f" 5 6 []]

/-- Source text for `shadowedModule` (six lines). -/
def shadowedSource : String :=
  "class A:\n    def f():\n        pass\n\ndef f():\n    pass"

/-- Claim C9: a top-level function whose bare name equals a method name of
a class processed earlier in the traversal is omitted — removing the
function node from any position after the class leaves the parse result
unchanged — and there are concrete files in which a genuine top-level
function is therefore absent: parsing `shadowedSource` yields a class but
an empty top-level function list. -/
theorem c9_method_name_shadows_function :
    (∀ (lines : List String) (cm : List String) (ws₁ : List PyNode)
       (cname : String) (csl cel : Nat) (cbody : List PyNode)
       (ws₂ : List PyNode) (fname : String) (fsl fel : Nat) (fbody : List PyNode)
       (ws₃ : List PyNode),
      fname ∈ pyMethodNames cbody →
      parsePyLoop lines
          (ws₁ ++ PyNode.classDef cname csl cel cbody
            :: (ws₂ ++ PyNode.functionDef fname fsl fel fbody :: ws₃)) cm
        = parsePyLoop lines
            (ws₁ ++ PyNode.classDef cname csl cel cbody :: (ws₂ ++ ws₃)) cm)
    ∧ (parsePythonFile shadowedSource (some shadowedModule)).2.1 = []
    ∧ (parsePythonFile shadowedSource (some shadowedModule)).1 ≠ [] := by
  refine ⟨?_, by decide, by decide⟩
  intro lines cm ws₁
  induction ws₁ generalizing cm with
  | nil =>
    intro cname csl cel cbody ws₂ fname fsl fel fbody ws₃ hmem
    simp only [List.nil_append, parsePyLoop]
    rw [parsePyLoop_skips_member lines fname fsl fel fbody ws₂ ws₃
      (cm ++ pyMethodNames cbody) (List.mem_append_right _ hmem)]
  | cons n rest ih =>
    intro cname csl cel cbody ws₂ fname fsl fel fbody ws₃ hmem
    cases n with
    | classDef a b c d =>
      simp only [List.cons_append, parsePyLoop, List.append_eq]
      rw [ih (cm ++ pyMethodNames d) cname csl cel cbody ws₂ fname fsl fel fbody ws₃ hmem]
    | functionDef a b c d =>
      simp only [List.cons_append, parsePyLoop, List.append_eq]
      by_cases hg : a ∈ cm
      · rw [if_pos hg, if_pos hg,
          ih cm cname csl cel cbody ws₂ fname fsl fel fbody ws₃ hmem]
      · rw [if_neg hg, if_neg hg,
          ih cm cname csl cel cbody ws₂ fname fsl fel fbody ws₃ hmem]
    | asyncFunctionDef a b c d =>
      simp only [List.cons_append, parsePyLoop, List.append_eq]
      rw [ih cm cname csl cel cbody ws₂ fname fsl fel fbody ws₃ hmem]
    | other a b c =>
      simp only [List.cons_append, parsePyLoop, List.append_eq]
      rw [ih cm cname csl cel cbody ws₂ fname fsl fel fbody ws₃ hmem]

/-- Witness for C9 at a concrete traversal list. -/
theorem c9_method_name_shadows_function_witness :
    "f" ∈ pyMethodNames [PyNode.functionDef "f" 2 3 []]
    ∧ parsePyLoop [] ([] ++ PyNode.classDef "A" 1 3 [PyNode.functionDef "f" 2 3 []]
          :: ([] ++ PyNode.functionDef "f" 5 6 [] :: [])) []
      = parsePyLoop [] ([] ++ PyNode.classDef "A" 1 3 [PyNode.functionDef "f" 2 3 []]
          :: ([] ++ [])) [] :=
  ⟨by decide,
   c9_method_name_shadows_function.1 [] [] [] "A" 1 3 [PyNode.functionDef "f" 2 3 []]
     [] "f" 5 6 [] [] (by decide)⟩

end CIBench
